import Mathlib

/-!
Verification development for the Philips CoAP air purifier integration:
a shallow embedding of the device-model abstraction layer (status store,
capability registry assembly, state projection, command translation,
filter alerting, model resolution) together with theorems about it.
-/

namespace Philips

/-- Raw status values delivered by the CoAP transport: strings or small
integers, depending on the firmware generation. -/
inductive Value where
  | s (v : String)
  | i (v : Int)
deriving DecidableEq

/-- A raw device status: ordered association list from raw key to value,
embedding the Python `dict` (keys unique, insertion ordered). -/
abbrev RawStatus := List (String × Value)

/-- A preset/speed pattern: mapping from raw key to required raw value. -/
abbrev Pattern := List (String × Value)

/-- First-match association lookup, embedding Python `dict.get`. -/
def alookup (k : String) : List (String × α) → Option α
  | [] => none
  | (k', v) :: rest => if k' = k then some v else alookup k rest

/-- Left-biased choice on options. -/
def orOpt (a b : Option α) : Option α :=
  match a with
  | some v => some v
  | none => b

/-- Single-key dictionary assignment `d[k] = v`: replaces the entry in
place if the key exists, otherwise appends it (Python dict semantics). -/
def dictSet (d : List (String × α)) (k : String) (v : α) : List (String × α) :=
  if d.any (fun kv => kv.1 = k) then
    d.map (fun kv => if kv.1 = k then (k, v) else kv)
  else
    d ++ [(k, v)]

/-- Embeds `d.update(e)`: merge the entries of `e` into `d` one by one, embedding
Python `dict.update`. -/
def dictUpdate (d e : List (String × α)) : List (String × α) :=
  e.foldl (fun acc kv => dictSet acc kv.1 kv.2) d

/-- The `replace_preset` / `replace_speed` substitution applied to a
pattern key before the status lookup (`base.py`, `preset_mode` and
`percentage`): when the key equals the substitution's source key, the
status is read at the substitution's target key instead. -/
def substKey (replace : Option (String × String)) (k : String) : String :=
  match replace with
  | some (src, dst) => if k = src then dst else k
  | none => k

/-- A pattern matches a raw status iff every `(key, required_value)` pair of
the pattern (after key substitution) equals the value in the status.
Embeds the inner `for k, v in status_pattern.items()` loop with its
for-else structure in `PhilipsGenericFanBase.preset_mode` / `percentage`. -/
def patternMatches (replace : Option (String × String)) (st : RawStatus)
    (pat : Pattern) : Bool :=
  pat.all (fun kv => decide (alookup (substKey replace kv.1) st = some kv.2))

/-- Embeds `PhilipsGenericFanBase.preset_mode`: iterate the collected preset
patterns in declaration order and return the first fully matching name. -/
def preset_mode (presets : List (String × Pattern))
    (replace : Option (String × String)) (st : RawStatus) : Option String :=
  match presets with
  | [] => none
  | (name, pat) :: rest =>
      if patternMatches replace st pat then some name
      else preset_mode rest replace st

/-- Embeds `homeassistant.util.percentage.ordered_list_item_to_percentage` (the
external helper the fan entity delegates to): the 1-based position of the
item, mapped evenly onto 0..100 with floor division. -/
def ordered_list_item_to_percentage (l : List String) (item : String) : Nat :=
  (l.indexOf item + 1) * 100 / l.length

/-- Loop of `homeassistant.util.percentage.percentage_to_ordered_list_item`:
return the first item whose upper bound `(position * 100) // len` reaches
the percentage. -/
def p2oAux (len p pos : Nat) : List String → Option String
  | [] => none
  | x :: rest => if p ≤ (pos + 1) * 100 / len then some x else p2oAux len p (pos + 1) rest

/-- Embeds `homeassistant.util.percentage.percentage_to_ordered_list_item`: first
item whose discretization bucket covers the percentage, falling back to the
last item; the empty list raises in the source and is modelled as `none`. -/
def percentage_to_ordered_list_item (l : List String) (p : Nat) : Option String :=
  match l with
  | [] => none
  | _ => orOpt (p2oAux l.length p 0 l) l.getLast?

/-- Embeds `PhilipsGenericFanBase.percentage` inner loop over the collected speed
patterns, carrying the full name list used for the ordinal computation. -/
def percentageAux (allNames : List String) (replace : Option (String × String))
    (st : RawStatus) : List (String × Pattern) → Option Nat
  | [] => none
  | (name, pat) :: rest =>
      if patternMatches replace st pat then
        some (ordered_list_item_to_percentage allNames name)
      else percentageAux allNames replace st rest

/-- Embeds `PhilipsGenericFanBase.percentage`: first-match over the speed table; on
a match, the matched name's ordinal position is converted to a percentage;
`none` when no speed pattern matches. -/
def percentage (speeds : List (String × Pattern))
    (replace : Option (String × String)) (st : RawStatus) : Option Nat :=
  percentageAux (speeds.map Prod.fst) replace st speeds

/-- Per-generation power encoding of a fan entity (`KEY_PHILIPS_POWER`,
`STATE_POWER_ON`, `STATE_POWER_OFF` class attributes in `base.py`). -/
structure FanConfig where
  powerKey : String
  powerOn : Value
  powerOff : Value
deriving DecidableEq

/-- Embeds `PhilipsGenericFanBase.is_on`: the raw status value at the power key
equals the power-on value. -/
def is_on (cfg : FanConfig) (st : RawStatus) : Bool :=
  decide (alookup cfg.powerKey st = some cfg.powerOn)

/-- One outbound transport interaction of the command translator: a
single-key write, a batched multi-key write, or a settle delay. -/
inductive TransportOp where
  | setValue (key : String) (v : Value)
  | setValues (data : Pattern)
  | sleep (seconds : Nat)
deriving DecidableEq

/-- Embeds `PhilipsGenericFanBase.async_turn_off`: write the power-off value and
optimistically update the status store. -/
def async_turn_off (cfg : FanConfig) (st : RawStatus) :
    List TransportOp × RawStatus :=
  ([TransportOp.setValue cfg.powerKey cfg.powerOff],
    dictSet st cfg.powerKey cfg.powerOff)

/-- Embeds `PhilipsGenericFanBase.async_set_preset_mode`: look up the requested
preset's pattern; if it is truthy (present and non-empty), send it as one
batched write and optimistically update the status store; otherwise no-op. -/
def async_set_preset_mode (presets : List (String × Pattern)) (st : RawStatus)
    (preset : String) : List TransportOp × RawStatus :=
  match alookup preset presets with
  | some pat =>
      if pat.isEmpty then ([], st)
      else ([TransportOp.setValues pat], dictUpdate st pat)
  | none => ([], st)

/-- Embeds `PhilipsGenericFanBase.async_set_percentage`: percentage 0 turns the
device off; otherwise the percentage is discretized onto the speed list,
the chosen speed's pattern is sent as one batched write (skipped when the
pattern is falsy) and the status store is updated with the pattern. -/
def async_set_percentage (cfg : FanConfig) (speeds : List (String × Pattern))
    (st : RawStatus) (p : Nat) : List TransportOp × RawStatus :=
  if p = 0 then async_turn_off cfg st
  else
    match percentage_to_ordered_list_item (speeds.map Prod.fst) p with
    | none => ([], st)
    | some speed =>
        match alookup speed speeds with
        | some pat =>
            ((if pat.isEmpty then [] else [TransportOp.setValues pat]),
              dictUpdate st pat)
        | none => ([], st)

/-- Remaining branches of `PhilipsGenericFanBase.async_turn_on` once the
preset argument is falsy: a truthy percentage delegates to set-percentage,
else the power-on value is written and the store updated. -/
def async_turn_on_aux (cfg : FanConfig) (speeds : List (String × Pattern))
    (st : RawStatus) (p : Option Nat) : List TransportOp × RawStatus :=
  match p with
  | some n =>
      if n ≠ 0 then async_set_percentage cfg speeds st n
      else ([TransportOp.setValue cfg.powerKey cfg.powerOn],
        dictSet st cfg.powerKey cfg.powerOn)
  | none => ([TransportOp.setValue cfg.powerKey cfg.powerOn],
      dictSet st cfg.powerKey cfg.powerOn)

/-- Embeds `PhilipsGenericFanBase.async_turn_on`: a truthy preset argument
delegates to set-preset, otherwise the remaining branches apply. -/
def async_turn_on (cfg : FanConfig) (presets speeds : List (String × Pattern))
    (st : RawStatus) (p : Option Nat) (preset : Option String) :
    List TransportOp × RawStatus :=
  match preset with
  | some pm =>
      if pm ≠ "" then async_set_preset_mode presets st pm
      else async_turn_on_aux cfg speeds st p
  | none => async_turn_on_aux cfg speeds st p

/-- Embeds `PhilipsGenericFanBase.oscillating`: `none` when no oscillation key is
declared or the key is absent from the status; otherwise whether the raw
value differs from the declared off-value. The declared triple is
(key, on_value, off_value). -/
def oscillating (keyOsc : Option (String × Value × Value)) (st : RawStatus) :
    Option Bool :=
  match keyOsc with
  | none => none
  | some (k, _, offV) =>
      match alookup k st with
      | none => none
      | some v => some (decide (v ≠ offV))

/-- Embeds `PhilipsGenericFanBase.async_oscillate`: write the single oscillation
key to its on/off value and optimistically update the status store. -/
def async_oscillate (keyOsc : Option (String × Value × Value)) (st : RawStatus)
    (osc : Bool) : List TransportOp × RawStatus :=
  match keyOsc with
  | none => ([], st)
  | some (k, onV, offV) =>
      let v := if osc then onV else offV
      ([TransportOp.setValue k v], dictSet st k v)

/-- Embeds `_collect_available_attributes` / the list-shaped half of the capability
registry assembly (`base.py`, `binary_sensor.py`): walk the reversed method
resolution order (base classes first) and concatenate each class's declared
list. The chain argument holds, base-first, the list each class contributes. -/
def collectLists (chain : List (List α)) : List α :=
  chain.foldl (fun acc l => acc ++ l) []

/-- Embeds `_collect_available_preset_modes` / `_collect_available_speeds`: walk the
reversed method resolution order (base classes first) and fold each class's
declared mapping into one dictionary with `dict.update`, so a descendant's
entry for an already-declared name overrides the ancestor's. -/
def collectMaps (chain : List (List (String × α))) : List (String × α) :=
  chain.foldl dictUpdate []

/-- The characters of a string before the first occurrence of a separator
character; the whole string when the separator is absent. Embeds Python
`s.partition(sep)[0]` and `s.split(sep)[0]`. -/
def beforeChar (sep : Char) (s : String) : String :=
  String.mk (s.toList.takeWhile (fun c => decide (c ≠ sep)))

/-- Python string slicing `s[:n]` by code points. -/
def takeChars (s : String) (n : Nat) : String :=
  String.mk (s.toList.take n)

/-- The display side of a discrete value-map entry: a plain label, or a
tuple (of which the attribute extraction keeps the first component). -/
inductive MapVal where
  | plain (v : Value)
  | pair (v w : Value)
deriving DecidableEq

/-- First component of a possibly-tuple map entry (`value[0]` in
`extra_state_attributes.append`). -/
def MapVal.fst : MapVal → Value
  | plain v => v
  | pair v _ => v

/-- The optional value-transform of a declared attribute: a discrete
value-to-label map, or a pure function of (raw value, whole status). -/
inductive ValueMap where
  | map (m : List (Value × MapVal))
  | fn (f : Value → RawStatus → Value)

/-- A declared attribute: display key, raw key (possibly carrying a '#'
disambiguation suffix), and optional value-transform. -/
structure AttrDecl where
  key : String
  philipsKey : String
  valueMap : Option ValueMap

/-- First-match lookup in a value-keyed association list (Python
`value in value_map` / `value_map.get(value)`). -/
def vlookup (v : Value) : List (Value × MapVal) → Option MapVal
  | [] => none
  | (v', mv) :: rest => if v' = v then some mv else vlookup v rest

/-- The inner `append` helper of
`PhilipsGenericControlBase.extra_state_attributes`: strip the '#' suffix
from the raw key; when the clean key is present in the status, transform
the raw value (a discrete map is applied only when the raw value is one of
its keys — the "unknown" default in the source is unreachable behind that
guard — and a tuple entry is reduced to its first component; a function
transform is applied to value and status) and record the display pair;
when the clean key is absent the attribute is omitted. -/
def appendAttr (st : RawStatus) (attrs : List (String × Value)) (a : AttrDecl) :
    List (String × Value) :=
  let cleanKey := beforeChar '#' a.philipsKey
  match alookup cleanKey st with
  | none => attrs
  | some v =>
      let v' :=
        match a.valueMap with
        | some (ValueMap.map m) =>
            match vlookup v m with
            | some mv => MapVal.fst mv
            | none => v
        | some (ValueMap.fn f) => f v st
        | none => v
      dictSet attrs a.key v'

/-- Embeds `PhilipsGenericControlBase.extra_state_attributes`: process every
declared attribute in order against the raw status. -/
def extra_state_attributes (attrs : List AttrDecl) (st : RawStatus) :
    List (String × Value) :=
  attrs.foldl (appendAttr st) []

/-- Embeds `PhilipsAirPurifierConfigFlow._resolve_model`: build the three
candidates — exact model, model plus a space plus the firmware/WiFi token
before '@', and the model truncated to the six-character family code — and
return the first that is registered in the model table. -/
def resolve_model (table : List String) (model wifi : String) : Option String :=
  let modelFamily := takeChars model 6
  let modelLong := model ++ " " ++ beforeChar '@' wifi
  List.find? (fun c => table.contains c) [model, modelLong, modelFamily]

/-- Modelled from the spec: `const.py` is not among the given sources; the
legacy generation's raw power field key (`PhilipsApi.POWER`) is represented
as the distinct string key "pwr". -/
def legacyPowerKey : String := "pwr"

/-- Modelled from the spec: `const.py` is not among the given sources; the
legacy generation's raw mode field key (`PhilipsApi.MODE`) is represented
as the distinct string key "mode". -/
def legacyModeKey : String := "mode"

/-- Modelled from the spec: `const.py` is not among the given sources; the
legacy generation's raw speed field key (`PhilipsApi.SPEED`) is represented
as the distinct string key "om". -/
def legacySpeedKey : String := "om"

/-- The legacy generation's power encoding: `KEY_PHILIPS_POWER` with
`STATE_POWER_ON = "1"`, `STATE_POWER_OFF = "0"` (`base.py`); the spec
records the same `"1"/"0"` encoding for `PhilipsApi.POWER_MAP`. -/
def legacyFanConfig : FanConfig :=
  FanConfig.mk legacyPowerKey (Value.s "1") (Value.s "0")

/-- Modelled from the spec: the preset-name constants of `PresetMode` live
in the missing `const.py`; only their identity matters, so they are
represented as distinct display strings. The AC1214's declared preset
table (`legacy.py`), in declaration order. -/
def ac1214Presets : List (String × Pattern) :=
  [("auto", [(legacyModeKey, Value.s "P")]),
   ("allergen", [(legacyModeKey, Value.s "A")]),
   ("night", [(legacyModeKey, Value.s "N")]),
   ("speed 1", [(legacyModeKey, Value.s "M"), (legacySpeedKey, Value.s "1")]),
   ("speed 2", [(legacyModeKey, Value.s "M"), (legacySpeedKey, Value.s "2")]),
   ("speed 3", [(legacyModeKey, Value.s "M"), (legacySpeedKey, Value.s "3")]),
   ("turbo", [(legacyModeKey, Value.s "M"), (legacySpeedKey, Value.s "t")])]

/-- The AC1214's declared speed table (`legacy.py`), in declaration order. -/
def ac1214Speeds : List (String × Pattern) :=
  [("night", [(legacyModeKey, Value.s "N")]),
   ("speed 1", [(legacyModeKey, Value.s "M"), (legacySpeedKey, Value.s "1")]),
   ("speed 2", [(legacyModeKey, Value.s "M"), (legacySpeedKey, Value.s "2")]),
   ("speed 3", [(legacyModeKey, Value.s "M"), (legacySpeedKey, Value.s "3")]),
   ("turbo", [(legacyModeKey, Value.s "M"), (legacySpeedKey, Value.s "t")])]

/-- Embeds `PhilipsAC1214._ensure_power_on`: when the device is currently off,
write power-on and wait a one-second settle delay. The status store is not
touched on this path. -/
def ac1214_ensure_power_on (st : RawStatus) : List TransportOp :=
  if is_on legacyFanConfig st then []
  else [TransportOp.setValue legacyPowerKey (Value.s "1"), TransportOp.sleep 1]

/-- Embeds `PhilipsAC1214._ensure_mode_transition`: when the requested target mode
is not "A", the currently projected preset's pattern is truthy and its mode
is not "M", write the allergen (mode "A") pattern as one batched write and
wait a one-second settle delay. -/
def ac1214_ensure_mode_transition (presets : List (String × Pattern))
    (st : RawStatus) (target : Option Value) : List TransportOp :=
  let curPat :=
    match preset_mode presets none st with
    | some name => alookup name presets
    | none => none
  match curPat with
  | some cp =>
      if target ≠ some (Value.s "A") ∧ ¬cp.isEmpty
          ∧ alookup legacyModeKey cp ≠ some (Value.s "M") then
        match alookup "allergen" presets with
        | some ap => [TransportOp.setValues ap, TransportOp.sleep 1]
        | none => []
      else []
  | none => []

/-- Embeds `PhilipsAC1214.async_set_preset_mode`: ensure power on, then for a
declared (truthy) pattern ensure the mode transition and send the final
pattern as one batched write. No optimistic status-store update happens on
this path. -/
def ac1214_set_preset_mode (presets : List (String × Pattern)) (st : RawStatus)
    (preset : String) : List TransportOp × RawStatus :=
  let pOps := ac1214_ensure_power_on st
  match alookup preset presets with
  | some pat =>
      if pat.isEmpty then (pOps, st)
      else
        (pOps ++ ac1214_ensure_mode_transition presets st (alookup legacyModeKey pat)
          ++ [TransportOp.setValues pat], st)
  | none => (pOps, st)

/-- Embeds `PhilipsAC1214.async_set_percentage`: ensure power on; percentage 0
delegates to the base turn-off (which does update the store); otherwise
discretize onto the speed list, ensure the mode transition, and send the
chosen speed's pattern as one batched write without updating the store. -/
def ac1214_set_percentage (presets speeds : List (String × Pattern))
    (st : RawStatus) (p : Nat) : List TransportOp × RawStatus :=
  let pOps := ac1214_ensure_power_on st
  if p = 0 then
    let r := async_turn_off legacyFanConfig st
    (pOps ++ r.1, r.2)
  else
    match percentage_to_ordered_list_item (speeds.map Prod.fst) p with
    | none => (pOps, st)
    | some speed =>
        match alookup speed speeds with
        | some pat =>
            if pat.isEmpty then (pOps, st)
            else
              (pOps ++ ac1214_ensure_mode_transition presets st (alookup legacyModeKey pat)
                ++ [TransportOp.setValues pat], st)
        | none => (pOps, st)

/-- Remaining branches of `PhilipsAC1214.async_turn_on` once the preset
argument is falsy (the leading ensure-power-on is added by the caller). -/
def ac1214_turn_on_aux (presets speeds : List (String × Pattern))
    (st : RawStatus) (p : Option Nat) : List TransportOp × RawStatus :=
  match p with
  | some n => if n ≠ 0 then ac1214_set_percentage presets speeds st n else ([], st)
  | none => ([], st)

/-- Embeds `PhilipsAC1214.async_turn_on`: ensure power on, then delegate to the
sequenced preset or percentage path for truthy arguments (each of which
repeats its own ensure-power-on); with no arguments nothing further is
written and the status store is untouched. -/
def ac1214_turn_on (presets speeds : List (String × Pattern)) (st : RawStatus)
    (p : Option Nat) (preset : Option String) : List TransportOp × RawStatus :=
  let pOps := ac1214_ensure_power_on st
  match preset with
  | some pm =>
      if pm ≠ "" then
        let r := ac1214_set_preset_mode presets st pm
        (pOps ++ r.1, r.2)
      else
        let r := ac1214_turn_on_aux presets speeds st p
        (pOps ++ r.1, r.2)
  | none =>
      let r := ac1214_turn_on_aux presets speeds st p
      (pOps ++ r.1, r.2)

/-- The mode of the currently projected preset: project the current preset
from the status, look up its pattern, and read the pattern's mode entry. -/
def ac1214ProjectedMode (presets : List (String × Pattern)) (st : RawStatus) :
    Option Value :=
  match preset_mode presets none st with
  | some name =>
      match alookup name presets with
      | some cp => alookup legacyModeKey cp
      | none => none
  | none => none

/-- Whether a projected mode exists and differs from the manual mode "M". -/
def modeIsNotManual (o : Option Value) : Bool :=
  match o with
  | some m => decide (m ≠ Value.s "M")
  | none => false

/-- Modelled from the spec: `const.py` is not among the given sources; the
fixed filter alert threshold `FILTER_ALERT_THRESHOLD` is 50 percent. -/
def FILTER_ALERT_THRESHOLD : Int := 50

/-- One entry of the `FILTER_TYPES` table (which lives in the missing
`const.py`): the raw filter key, its display label, and the optional raw
key holding the filter's total capacity. -/
structure FilterType where
  key : String
  label : String
  totalKey : Option String
deriving DecidableEq

/-- Embeds `FILTER_TYPES.get(filter_key)`. -/
def findFilterType (k : String) : List FilterType → Option FilterType
  | [] => none
  | ft :: rest => if ft.key = k then some ft else findFilterType k rest

/-- Numeric reading of a raw status value; filter remaining-life and total
fields are integers on the wire, string values are outside this model. -/
def toIntVal : Value → Option Int
  | Value.i v => some v
  | Value.s _ => none

/-- The exact quotient `a / b` (for integer `a`, positive integer `b`)
rounded to the nearest integer with ties to even: the behaviour of
Python's `round` on the quotient. -/
def roundDivHalfEven (a b : Int) : Int :=
  let q := Int.fdiv a b
  let r := a - q * b
  if 2 * r < b then q
  else if b < 2 * r then q + 1
  else if q % 2 = 0 then q else q + 1

/-- The raw-hours branch of `_get_low_filters`: with no usable total, the
filter is low when the raw remaining value is under the 72-hour constant,
and the raw value itself is recorded. -/
def rawLowEntry (k : String) (v : Value) : Option (String × Int) :=
  match toIntVal v with
  | some value => if value < 72 then some (k, value) else none
  | none => none

/-- Per-filter body of `PhilipsFilterAlertSensor._get_low_filters`: when the
descriptor declares a total key that is present in the status, the filter
is low iff the total is positive and `round(100 * value / total)` is below
the threshold (the rounded percentage is recorded); otherwise the raw-hours
rule applies. -/
def lowEntry (st : RawStatus) (ft : FilterType) (k : String) (v : Value) :
    Option (String × Int) :=
  match ft.totalKey with
  | some tk =>
      match alookup tk st with
      | some tv =>
          match toIntVal v, toIntVal tv with
          | some value, some total =>
              if 0 < total then
                let pct := roundDivHalfEven (100 * value) total
                if pct < FILTER_ALERT_THRESHOLD then some (k, pct) else none
              else none
          | _, _ => none
      | none => rawLowEntry k v
  | none => rawLowEntry k v

/-- Embeds `PhilipsFilterAlertSensor._get_low_filters`: walk the sensor's filter
keys in order; keys absent from the status or without a descriptor are
skipped; each remaining key contributes its low entry, if any. -/
def getLowFilters (types : List FilterType) (filterKeys : List String)
    (st : RawStatus) : List (String × Int) :=
  match filterKeys with
  | [] => []
  | k :: rest =>
      let tail := getLowFilters types rest st
      match alookup k st with
      | none => tail
      | some v =>
          match findFilterType k types with
          | none => tail
          | some ft =>
              match lowEntry st ft k v with
              | some e => e :: tail
              | none => tail

/-- Retained cross-cycle state of the filter alert sensor:
`_previous_alert_state` (uninitialized on the very first cycle) and
`_previous_low_filters`. -/
structure AlertState where
  prevAlert : Option Bool
  prevLow : List String
deriving DecidableEq

/-- The payload of one `philips_filter_alert` event. -/
structure AlertEvent where
  deviceId : String
  deviceName : String
  filterKey : String
  filterName : String
  percentage : Option Int
  threshold : Int
deriving DecidableEq

/-- Embeds `PhilipsFilterAlertSensor._handle_coordinator_update`: recompute the low
set; on every cycle after the first, fire one event for each newly low
filter key (the source iterates a Python set difference, modelled here in
current-low order) carrying device id, filter key and name, the
percentage-or-raw value, and the threshold; finally store the current
alert flag and low set unconditionally. -/
def handleCoordinatorUpdate (types : List FilterType) (filterKeys : List String)
    (devId devName : String) (st : RawStatus) (state : AlertState) :
    List AlertEvent × AlertState :=
  let low := getLowFilters types filterKeys st
  let currentLow := low.map Prod.fst
  let currentAlert := ¬ currentLow.isEmpty
  let events :=
    match state.prevAlert with
    | none => []
    | some _ =>
        (currentLow.filter (fun k => decide (k ∉ state.prevLow))).map (fun k =>
          AlertEvent.mk devId devName k
            (match findFilterType k types with
             | some ft => ft.label
             | none => k)
            (alookup k low) FILTER_ALERT_THRESHOLD)
  (events, AlertState.mk (some currentAlert) currentLow)

/-- A later pattern's write forcibly breaks an earlier pattern: some pair of
the earlier pattern is contradicted by the value the later pattern writes
at the same key. -/
def overriddenBy (pj pi : Pattern) : Bool :=
  pj.any (fun kv =>
    match alookup kv.1 pi with
    | some w => decide (w ≠ kv.2)
    | none => false)

/-- Well-separatedness of a speed table: every earlier declared pattern is
broken by every later declared pattern's write-set. All speed tables
declared in the repository satisfy this (each later speed rewrites the
mode or speed key to a different value). -/
def tableOkB : List (String × Pattern) → Bool
  | [] => true
  | e :: rest => rest.all (fun e2 => overriddenBy e.2 e2.2) && tableOkB rest

end Philips

namespace Philips

theorem orOpt_none_left (b : Option α) : orOpt none b = b := rfl

theorem orOpt_none_right (a : Option α) : orOpt a none = a := by
  cases a <;> rfl

theorem orOpt_assoc (a b c : Option α) : orOpt (orOpt a b) c = orOpt a (orOpt b c) := by
  cases a <;> rfl

theorem orOpt_some (v : α) (b : Option α) : orOpt (some v) b = some v := rfl

theorem alookup_append (k : String) (l₁ l₂ : List (String × α)) :
    alookup k (l₁ ++ l₂) = orOpt (alookup k l₁) (alookup k l₂) := by
  induction l₁ with
  | nil => rfl
  | cons hd tl ih =>
      obtain ⟨k', v⟩ := hd
      by_cases h : k' = k <;> simp [alookup, h, ih, orOpt]

theorem alookup_eq_none_iff (k : String) (l : List (String × α)) :
    alookup k l = none ↔ k ∉ l.map Prod.fst := by
  induction l with
  | nil => simp [alookup]
  | cons hd tl ih =>
      obtain ⟨k', v⟩ := hd
      by_cases h : k' = k
      · subst h
        simp [alookup]
      · have h' : ¬ k = k' := fun he => h he.symm
        simp [alookup, h, h', ih]

theorem alookup_mem {k : String} {l : List (String × α)} {v : α}
    (h : alookup k l = some v) : (k, v) ∈ l := by
  induction l with
  | nil => simp [alookup] at h
  | cons hd tl ih =>
      obtain ⟨k', v'⟩ := hd
      by_cases hk : k' = k
      · subst hk
        simp [alookup] at h
        simp [h]
      · simp [alookup, hk] at h
        exact List.mem_cons_of_mem _ (ih h)

theorem mem_alookup_of_nodup {k : String} {l : List (String × α)} {v : α}
    (hmem : (k, v) ∈ l) (hnd : (l.map Prod.fst).Nodup) : alookup k l = some v := by
  induction l with
  | nil => simp at hmem
  | cons hd tl ih =>
      obtain ⟨k', v'⟩ := hd
      simp only [List.map_cons, List.nodup_cons] at hnd
      rcases List.mem_cons.mp hmem with h | h
      · obtain ⟨rfl, rfl⟩ := Prod.ext_iff.mp h.symm
        simp [alookup]
      · have hk : k' ≠ k := by
          intro he
          subst he
          exact hnd.1 (List.mem_map.mpr ⟨(k', v), h, rfl⟩)
        simp only [alookup, hk, if_false]
        exact ih h hnd.2

theorem alookup_isSome_of_any {k : String} {d : List (String × α)}
    (h : d.any (fun kv => kv.1 = k) = true) : ∃ w, alookup k d = some w := by
  obtain ⟨kv, hmem, hkv⟩ := List.any_eq_true.mp h
  have hk : k ∈ d.map Prod.fst :=
    List.mem_map.mpr ⟨kv, hmem, by simpa using hkv⟩
  rcases he : alookup k d with _ | w
  · exact absurd hk ((alookup_eq_none_iff k d).mp he)
  · exact ⟨w, rfl⟩

theorem alookup_map_set (k k' : String) (v : α) (d : List (String × α)) :
    alookup k (d.map (fun kv => if kv.1 = k' then (k', v) else kv))
      = if k' = k then (alookup k d).map (fun _ => v) else alookup k d := by
  induction d with
  | nil => by_cases h : k' = k <;> simp [alookup, h]
  | cons hd tl ih =>
      obtain ⟨k₀, v₀⟩ := hd
      simp only [List.map_cons]
      by_cases h0 : k₀ = k'
      · subst h0
        rw [if_pos (show (k₀, v₀).1 = k₀ from rfl)]
        by_cases hk : k₀ = k
        · subst hk
          simp [alookup]
        · simp [alookup, hk, ih]
      · rw [if_neg (show ¬ (k₀, v₀).1 = k' from h0)]
        by_cases hk : k₀ = k
        · subst hk
          have hne : ¬ k' = k₀ := fun he => h0 he.symm
          simp [alookup, hne]
        · by_cases h2 : k' = k
          · subst h2
            simp [alookup, h0, hk, ih]
          · simp [alookup, h0, hk, h2, ih]

theorem alookup_dictSet (k k' : String) (v : α) (d : List (String × α)) :
    alookup k (dictSet d k' v) = if k' = k then some v else alookup k d := by
  unfold dictSet
  by_cases hin : d.any (fun kv => kv.1 = k') = true
  · rw [if_pos hin, alookup_map_set]
    by_cases hk : k' = k
    · rw [if_pos hk, if_pos hk]
      obtain ⟨w, hw⟩ := alookup_isSome_of_any (hk ▸ hin)
      rw [hw]
      rfl
    · rw [if_neg hk, if_neg hk]
  · rw [if_neg hin, alookup_append]
    by_cases hk : k' = k
    · rw [if_pos hk]
      have hnone : alookup k d = none := by
        rw [alookup_eq_none_iff]
        intro hmem
        obtain ⟨kv, hkv, hfst⟩ := List.mem_map.mp hmem
        exact hin (List.any_eq_true.mpr ⟨kv, hkv, by simp [hfst, hk]⟩)
      rw [hnone]
      simp [alookup, hk, orOpt]
    · rw [if_neg hk]
      have h2 : alookup k [(k', v)] = none := by simp [alookup, hk]
      rw [h2, orOpt_none_right]

theorem alookup_dictUpdate_rev (k : String) (d e : List (String × α)) :
    alookup k (dictUpdate d e) = orOpt (alookup k e.reverse) (alookup k d) := by
  induction e generalizing d with
  | nil => rfl
  | cons hd tl ih =>
      obtain ⟨k', v⟩ := hd
      show alookup k (dictUpdate (dictSet d k' v) tl) = _
      rw [ih, List.reverse_cons, alookup_append, orOpt_assoc, alookup_dictSet]
      by_cases hk : k' = k <;> simp [alookup, hk, orOpt_some, orOpt_none_left]

theorem alookup_reverse_of_nodup (k : String) (l : List (String × α))
    (hnd : (l.map Prod.fst).Nodup) : alookup k l.reverse = alookup k l := by
  induction l with
  | nil => rfl
  | cons hd tl ih =>
      obtain ⟨k', v⟩ := hd
      simp only [List.map_cons, List.nodup_cons] at hnd
      rw [List.reverse_cons, alookup_append, ih hnd.2]
      by_cases hk : k' = k
      · subst hk
        have : alookup k' tl = none := by
          rw [alookup_eq_none_iff]
          exact hnd.1
        simp [this, alookup, orOpt]
      · simp [alookup, hk, orOpt_none_right]

theorem alookup_dictUpdate (k : String) (d e : List (String × α))
    (hnd : (e.map Prod.fst).Nodup) :
    alookup k (dictUpdate d e) = orOpt (alookup k e) (alookup k d) := by
  rw [alookup_dictUpdate_rev, alookup_reverse_of_nodup k e hnd]

theorem findSome?_append (f : α → Option β) (l₁ l₂ : List α) :
    (l₁ ++ l₂).findSome? f = orOpt (l₁.findSome? f) (l₂.findSome? f) := by
  induction l₁ with
  | nil => rfl
  | cons hd tl ih =>
      rcases h : f hd with _ | b <;>
        simp [List.findSome?_cons, h, ih, orOpt]

theorem patternMatches_true_iff (r : Option (String × String)) (st : RawStatus)
    (pat : Pattern) :
    patternMatches r st pat = true ↔
      ∀ kv ∈ pat, alookup (substKey r kv.1) st = some kv.2 := by
  simp [patternMatches, List.all_eq_true]

theorem patternMatches_false_iff (r : Option (String × String)) (st : RawStatus)
    (pat : Pattern) :
    patternMatches r st pat = false ↔
      ∃ kv ∈ pat, alookup (substKey r kv.1) st ≠ some kv.2 := by
  rw [← Bool.not_eq_true, patternMatches_true_iff]
  push_neg
  rfl

theorem mem_foldl_append (a : α) (chain : List (List α)) :
    ∀ init : List α, (a ∈ init ∨ ∃ l ∈ chain, a ∈ l) →
      a ∈ chain.foldl (fun acc l => acc ++ l) init := by
  induction chain with
  | nil =>
      intro init h
      rcases h with h | ⟨l, hl, _⟩
      · exact h
      · simp at hl
  | cons hd tl ih =>
      intro init h
      show a ∈ tl.foldl (fun acc l => acc ++ l) (init ++ hd)
      rcases h with h | ⟨l, hl, ha⟩
      · exact ih (init ++ hd) (Or.inl (List.mem_append_left hd h))
      · rcases List.mem_cons.mp hl with hl0 | hl'
        · exact ih (init ++ hd) (Or.inl (List.mem_append_right init (hl0 ▸ ha)))
        · exact ih (init ++ hd) (Or.inr ⟨l, hl', ha⟩)

theorem findSome?_singleton (f : α → Option β) (a : α) :
    List.findSome? f [a] = f a := by
  rcases h : f a with _ | b <;> simp [List.findSome?, h]

theorem alookup_collectMaps_aux (k : String) (chain : List (List (String × β)))
    (init : List (String × β)) (hnd : ∀ tbl ∈ chain, (tbl.map Prod.fst).Nodup) :
    alookup k (chain.foldl dictUpdate init)
      = orOpt (chain.reverse.findSome? (fun tbl => alookup k tbl)) (alookup k init) := by
  induction chain generalizing init with
  | nil => rfl
  | cons tbl tl ih =>
      show alookup k (tl.foldl dictUpdate (dictUpdate init tbl)) = _
      rw [ih (dictUpdate init tbl) (fun t ht => hnd t (List.mem_cons_of_mem _ ht)),
        alookup_dictUpdate k init tbl (hnd tbl (List.mem_cons_self _ _)),
        List.reverse_cons, findSome?_append, orOpt_assoc, findSome?_singleton]

/-- C1: the current-preset projection is first-match-wins. For every preset
table, substitution and raw status, `preset_mode` equals the first-match
search over the declared patterns with the substituted keys checked
pairwise against the status; it is `none` exactly when every declared
pattern has some pair that is not met; and a `some name` result decomposes
the table as earlier-all-failing patterns, then the fully matching entry
for `name`. -/
theorem claim_C1_preset_mode_first_match (presets : List (String × Pattern))
    (replace : Option (String × String)) (st : RawStatus) :
    (preset_mode presets replace st
        = Option.map Prod.fst (presets.find? (fun e => patternMatches replace st e.2)))
    ∧ (preset_mode presets replace st = none ↔
        ∀ e ∈ presets, ∃ kv ∈ e.2, alookup (substKey replace kv.1) st ≠ some kv.2)
    ∧ ∀ name, preset_mode presets replace st = some name →
        ∃ pre pat post, presets = pre ++ (name, pat) :: post
          ∧ (∀ kv ∈ pat, alookup (substKey replace kv.1) st = some kv.2)
          ∧ ∀ e ∈ pre, ∃ kv ∈ e.2, alookup (substKey replace kv.1) st ≠ some kv.2 := by
  induction presets with
  | nil =>
      refine ⟨rfl, by simp [preset_mode], ?_⟩
      intro name h
      simp [preset_mode] at h
  | cons hd tl ih =>
      obtain ⟨n, p⟩ := hd
      cases hm : patternMatches replace st p with
      | false =>
          have hstep : preset_mode ((n, p) :: tl) replace st = preset_mode tl replace st := by
            simp [preset_mode, hm]
          have hfind : ((n, p) :: tl).find? (fun e => patternMatches replace st e.2)
              = tl.find? (fun e => patternMatches replace st e.2) :=
            List.find?_cons_of_neg _ (by simp [hm])
          refine ⟨by rw [hstep, hfind, ih.1], ?_, ?_⟩
          · rw [hstep, ih.2.1]
            constructor
            · intro h e he
              rcases List.mem_cons.mp he with he0 | he'
              · subst he0
                exact (patternMatches_false_iff replace st p).mp hm
              · exact h e he'
            · intro h e he
              exact h e (List.mem_cons_of_mem _ he)
          · intro name h
            rw [hstep] at h
            obtain ⟨pre, pat, post, heq, hpat, hpre⟩ := ih.2.2 name h
            refine ⟨(n, p) :: pre, pat, post, by rw [heq]; rfl, hpat, ?_⟩
            intro e he
            rcases List.mem_cons.mp he with he0 | he'
            · subst he0
              exact (patternMatches_false_iff replace st p).mp hm
            · exact hpre e he'
      | true =>
          have hstep : preset_mode ((n, p) :: tl) replace st = some n := by
            simp [preset_mode, hm]
          have hfind : ((n, p) :: tl).find? (fun e => patternMatches replace st e.2)
              = some (n, p) :=
            List.find?_cons_of_pos _ (by simp [hm])
          refine ⟨by rw [hstep, hfind]; rfl, ?_, ?_⟩
          · rw [hstep]
            constructor
            · intro h
              exact absurd h (by simp)
            · intro h
              obtain ⟨kv, hkv, hne⟩ := h (n, p) (List.mem_cons_self _ _)
              exact absurd ((patternMatches_true_iff replace st p).mp hm kv hkv) hne
          · intro name h
            rw [hstep] at h
            obtain rfl : n = name := Option.some.inj h
            refine ⟨[], p, tl, rfl, (patternMatches_true_iff replace st p).mp hm, ?_⟩
            intro e he
            simp at he

/-- C2: capability registry assembly over the ancestor chain (given
base-first, as the source's reversed method resolution order walk).
Accumulation: every entry of every chain member's list-shaped table is in
the assembled list. Override: for map-shaped tables whose per-class keys
are unique, the assembled value of a name is the value of the most
specific (latest, i.e. first in the reversed chain) class declaring it. -/
theorem claim_C2_registry_assembly (α β : Type) (chain : List (List α))
    (mchain : List (List (String × β)))
    (hnd : ∀ tbl ∈ mchain, (tbl.map Prod.fst).Nodup) :
    (∀ l ∈ chain, ∀ a ∈ l, a ∈ collectLists chain)
    ∧ ∀ k, alookup k (collectMaps mchain)
        = mchain.reverse.findSome? (fun tbl => alookup k tbl) := by
  constructor
  · intro l hl a ha
    exact mem_foldl_append a chain [] (Or.inr ⟨l, hl, ha⟩)
  · intro k
    rw [collectMaps, alookup_collectMaps_aux k mchain [] hnd]
    exact orOpt_none_right _

/-- Witness for C2 at a concrete two-class chain: the base class's list
entry survives assembly, and the descendant's map entry overrides the
ancestor's for the shared name. -/
theorem claim_C2_registry_assembly_witness :
    ("b" ∈ collectLists [["a"], ["b"]])
    ∧ alookup "auto" (collectMaps
        [[("auto", [(legacyModeKey, Value.s "P")])],
         [("auto", [(legacyModeKey, Value.s "AG")])]])
      = some [(legacyModeKey, Value.s "AG")] := by
  have h := claim_C2_registry_assembly String Pattern [["a"], ["b"]]
    [[("auto", [(legacyModeKey, Value.s "P")])],
     [("auto", [(legacyModeKey, Value.s "AG")])]]
    (by intro tbl htbl; fin_cases htbl <;> simp)
  constructor
  · exact h.1 ["b"] (by simp) "b" (by simp)
  · rw [h.2 "auto"]
    rfl

/-- Witness for C1 at the AC1214 preset table and a status in night mode:
the projection returns "night", decomposing the table into the two failing
earlier patterns and the matching night pattern. -/
theorem claim_C1_preset_mode_first_match_witness :
    ∃ pre pat post, ac1214Presets = pre ++ ("night", pat) :: post
      ∧ (∀ kv ∈ pat,
          alookup (substKey none kv.1) [(legacyModeKey, Value.s "N")] = some kv.2)
      ∧ ∀ e ∈ pre, ∃ kv ∈ e.2,
          alookup (substKey none kv.1) [(legacyModeKey, Value.s "N")] ≠ some kv.2 :=
  (claim_C1_preset_mode_first_match ac1214Presets none
    [(legacyModeKey, Value.s "N")]).2.2 "night" (by decide)

/-- C9: device family resolution tries the exact model string, then the
model qualified by the WiFi-firmware token before '@', then the
six-character family code, and returns the first candidate registered in
the model table; with no registered candidate it reports `none` (the
caller aborts setup for the device). -/
theorem claim_C9_resolve_model (table : List String) (model wifi : String) :
    (model ∈ table → resolve_model table model wifi = some model)
    ∧ (model ∉ table → (model ++ " " ++ beforeChar '@' wifi) ∈ table →
        resolve_model table model wifi = some (model ++ " " ++ beforeChar '@' wifi))
    ∧ (model ∉ table → (model ++ " " ++ beforeChar '@' wifi) ∉ table →
        takeChars model 6 ∈ table →
        resolve_model table model wifi = some (takeChars model 6))
    ∧ (model ∉ table → (model ++ " " ++ beforeChar '@' wifi) ∉ table →
        takeChars model 6 ∉ table →
        resolve_model table model wifi = none) := by
  refine ⟨?_, ?_, ?_, ?_⟩
  · intro h1
    simp [resolve_model, List.find?, h1]
  · intro h1 h2
    simp [resolve_model, List.find?, h1, h2]
  · intro h1 h2 h3
    simp [resolve_model, List.find?, h1, h2, h3]
  · intro h1 h2 h3
    simp [resolve_model, List.find?, h1, h2, h3]

/-- Witness for C9: "AC3033/10" with no firmware-qualified entry resolves
via the family code "AC3033", an exact full-string registration takes
priority over the family-code fallback, and an unregistered model resolves
to `none`. -/
theorem claim_C9_resolve_model_witness :
    resolve_model ["AC3033"] "AC3033/10" "1.0.7@abc" = some "AC3033"
    ∧ resolve_model ["AC3033/10", "AC3033"] "AC3033/10" "1.0.7@abc" = some "AC3033/10"
    ∧ resolve_model ["AC9999"] "AC3033/10" "1.0.7@abc" = none := by
  refine ⟨?_, ?_, ?_⟩
  · have h := (claim_C9_resolve_model ["AC3033"] "AC3033/10" "1.0.7@abc").2.2.1
      (by decide) (by decide) (by decide)
    simpa using h
  · exact (claim_C9_resolve_model ["AC3033/10", "AC3033"] "AC3033/10" "1.0.7@abc").1
      (by decide)
  · exact (claim_C9_resolve_model ["AC9999"] "AC3033/10" "1.0.7@abc").2.2.2
      (by decide) (by decide) (by decide)

/-- C10: with an oscillation key declared but absent from the raw status
the oscillating projection is `none` (unknown), and with the key present
it is the boolean "raw value differs from the declared off-value". -/
theorem claim_C10_oscillating_projection (k : String) (onV offV : Value)
    (st : RawStatus) :
    (alookup k st = none → oscillating (some (k, onV, offV)) st = none)
    ∧ ∀ v, alookup k st = some v →
        oscillating (some (k, onV, offV)) st = some (decide (v ≠ offV)) := by
  constructor
  · intro h
    simp [oscillating, h]
  · intro v h
    simp [oscillating, h]

/-- Witness for C10 at a concrete oscillation config: absent key gives
`none`; a value differing from the off-value gives `some true`; the
off-value itself gives `some false`. -/
theorem claim_C10_oscillating_projection_witness :
    oscillating (some ("osc", Value.i 1, Value.i 0)) [] = none
    ∧ oscillating (some ("osc", Value.i 1, Value.i 0)) [("osc", Value.i 2)] = some true
    ∧ oscillating (some ("osc", Value.i 1, Value.i 0)) [("osc", Value.i 0)] = some false := by
  refine ⟨(claim_C10_oscillating_projection "osc" (Value.i 1) (Value.i 0) []).1 rfl, ?_, ?_⟩
  · have h := (claim_C10_oscillating_projection "osc" (Value.i 1) (Value.i 0)
      [("osc", Value.i 2)]).2 (Value.i 2) (by decide)
    simpa using h
  · have h := (claim_C10_oscillating_projection "osc" (Value.i 1) (Value.i 0)
      [("osc", Value.i 0)]).2 (Value.i 0) (by decide)
    simpa using h

/-- Counterexample to C8 as stated: for a declared attribute with a
discrete value-map, a raw value that is not a key of the map is passed
through unchanged by `extra_state_attributes` instead of being mapped to
"unknown" (the source guards the map lookup with `value in value_map`,
making its "unknown" default unreachable). -/
theorem claim_C8_counterexample :
    extra_state_attributes
        [AttrDecl.mk "pref" "D03-42"
          (some (ValueMap.map [(Value.i 0, MapVal.plain (Value.s "indoor"))]))]
        [("D03-42", Value.i 5)]
      = [("pref", Value.i 5)]
    ∧ extra_state_attributes
        [AttrDecl.mk "pref" "D03-42"
          (some (ValueMap.map [(Value.i 0, MapVal.plain (Value.s "indoor"))]))]
        [("D03-42", Value.i 5)]
      ≠ [("pref", Value.s "unknown")] := by
  constructor
  · rfl
  · decide

/-- C8 (amended): for a declared attribute with a discrete value-map, if
the raw key (after stripping the '#' suffix) is present in the raw status,
the displayed value is the map's entry for the raw value when the raw
value is a key of the map (a tuple entry contributing its first
component), and the raw value itself otherwise; the attribute is omitted
entirely when the raw key is absent. -/
theorem claim_C8_attribute_extraction (key pkey : String)
    (m : List (Value × MapVal)) (st : RawStatus) :
    (alookup (beforeChar '#' pkey) st = none →
      extra_state_attributes [AttrDecl.mk key pkey (some (ValueMap.map m))] st = [])
    ∧ (∀ v mv, alookup (beforeChar '#' pkey) st = some v → vlookup v m = some mv →
        extra_state_attributes [AttrDecl.mk key pkey (some (ValueMap.map m))] st
          = [(key, MapVal.fst mv)])
    ∧ (∀ v, alookup (beforeChar '#' pkey) st = some v → vlookup v m = none →
        extra_state_attributes [AttrDecl.mk key pkey (some (ValueMap.map m))] st
          = [(key, v)]) := by
  refine ⟨?_, ?_, ?_⟩
  · intro h
    simp [extra_state_attributes, appendAttr, h]
  · intro v mv h1 h2
    simp [extra_state_attributes, appendAttr, h1, h2, dictSet]
  · intro v h1 h2
    simp [extra_state_attributes, appendAttr, h1, h2, dictSet]

/-- Witness for C8 (amended) at a concrete attribute with the '#'
disambiguation suffix: absent raw key omits the attribute, a mapped raw
value displays its label, an unmapped raw value passes through. -/
theorem claim_C8_attribute_extraction_witness :
    extra_state_attributes
        [AttrDecl.mk "pref" "D03-42#1"
          (some (ValueMap.map [(Value.i 0, MapVal.plain (Value.s "indoor"))]))] [] = []
    ∧ extra_state_attributes
        [AttrDecl.mk "pref" "D03-42#1"
          (some (ValueMap.map [(Value.i 0, MapVal.plain (Value.s "indoor"))]))]
        [("D03-42", Value.i 0)]
      = [("pref", Value.s "indoor")]
    ∧ extra_state_attributes
        [AttrDecl.mk "pref" "D03-42#1"
          (some (ValueMap.map [(Value.i 0, MapVal.plain (Value.s "indoor"))]))]
        [("D03-42", Value.i 5)]
      = [("pref", Value.i 5)] := by
  refine ⟨?_, ?_, ?_⟩
  · exact (claim_C8_attribute_extraction "pref" "D03-42#1"
      [(Value.i 0, MapVal.plain (Value.s "indoor"))] []).1 (by decide)
  · exact (claim_C8_attribute_extraction "pref" "D03-42#1"
      [(Value.i 0, MapVal.plain (Value.s "indoor"))] [("D03-42", Value.i 0)]).2.1
      (Value.i 0) (MapVal.plain (Value.s "indoor")) (by decide) (by decide)
  · exact (claim_C8_attribute_extraction "pref" "D03-42#1"
      [(Value.i 0, MapVal.plain (Value.s "indoor"))] [("D03-42", Value.i 5)]).2.2
      (Value.i 5) (by decide) (by decide)

theorem ub_lt_succ_ub (N m : Nat) (hNpos : 0 < N) (hN : N ≤ 100) :
    m * 100 / N < (m + 1) * 100 / N := by
  have h1 : m * 100 + N ≤ (m + 1) * 100 := by omega
  calc m * 100 / N < m * 100 / N + 1 := Nat.lt_succ_self _
    _ = (m * 100 + N) / N := (Nat.add_div_right _ hNpos).symm
    _ ≤ (m + 1) * 100 / N := Nat.div_le_div_right h1

theorem ub_strict_mono (N j i : Nat) (hNpos : 0 < N) (hN : N ≤ 100) (hji : j < i) :
    (j + 1) * 100 / N < (i + 1) * 100 / N :=
  strictMono_nat_of_lt_succ (fun m => ub_lt_succ_ub N (m + 1) hNpos hN) hji

theorem p2oAux_eq_get (l : List String) (len p : Nat) :
    ∀ (pos i : Nat) (hi : i < l.length),
      (∀ j, j < i → ¬ p ≤ (pos + j + 1) * 100 / len) →
      p ≤ (pos + i + 1) * 100 / len →
      p2oAux len p pos l = some (l.get ⟨i, hi⟩) := by
  induction l with
  | nil =>
      intro pos i hi
      simp at hi
  | cons x rest ih =>
      intro pos i hi hlow hhit
      cases i with
      | zero =>
          have hz : p ≤ (pos + 1) * 100 / len := by
            have h0 : pos + 0 + 1 = pos + 1 := by omega
            rw [h0] at hhit
            exact hhit
          simp [p2oAux, hz]
      | succ i' =>
          have hx : ¬ p ≤ (pos + 1) * 100 / len := by
            have h0 := hlow 0 (Nat.succ_pos i')
            have he : pos + 0 + 1 = pos + 1 := by omega
            rw [he] at h0
            exact h0
          have hi' : i' < rest.length := Nat.lt_of_succ_lt_succ hi
          have hres := ih (pos + 1) i' hi'
            (fun j hj => by
              have h2 := hlow (j + 1) (Nat.succ_lt_succ hj)
              have he : pos + (j + 1) + 1 = pos + 1 + j + 1 := by omega
              rw [he] at h2
              exact h2)
            (by
              have he : pos + (i' + 1) + 1 = pos + 1 + i' + 1 := by omega
              rw [he] at hhit
              exact hhit)
          simp only [p2oAux, hx, if_false]
          rw [hres]
          rfl

theorem p2o_of_first_bucket (l : List String) (p : Nat) (i : Nat) (hi : i < l.length)
    (hlow : ∀ j, j < i → ¬ p ≤ (j + 1) * 100 / l.length)
    (hhit : p ≤ (i + 1) * 100 / l.length) :
    percentage_to_ordered_list_item l p = some (l.get ⟨i, hi⟩) := by
  cases l with
  | nil => simp at hi
  | cons x rest =>
      show orOpt (p2oAux (x :: rest).length p 0 (x :: rest)) (x :: rest).getLast? = _
      rw [p2oAux_eq_get (x :: rest) (x :: rest).length p 0 i hi
        (fun j hj => by
          have h2 := hlow j hj
          have he : 0 + j + 1 = j + 1 := by omega
          rw [he]
          exact h2)
        (by
          have he : 0 + i + 1 = i + 1 := by omega
          rw [he]
          exact hhit)]
      rfl

/-- C4: for a requested percentage, 0 performs the base turn-off (a single
write of the power key to the power-off value, with the optimistic store
update); a positive percentage discretizes onto the declared speeds and
sends the chosen speed's whole pattern as exactly one batched
`set_control_values` call (never per-key writes), updating the store with
the pattern; and the chosen speed is the first one whose discretization
bucket covers the requested percentage. -/
theorem claim_C4_set_percentage_translation (cfg : FanConfig)
    (speeds : List (String × Pattern)) (st : RawStatus) (n : Nat) (h100 : n ≤ 100) :
    (n = 0 → async_set_percentage cfg speeds st n = async_turn_off cfg st
      ∧ async_turn_off cfg st
          = ([TransportOp.setValue cfg.powerKey cfg.powerOff],
              dictSet st cfg.powerKey cfg.powerOff))
    ∧ (n ≠ 0 → ∀ speed pat,
        percentage_to_ordered_list_item (speeds.map Prod.fst) n = some speed →
        alookup speed speeds = some pat → pat ≠ [] →
        async_set_percentage cfg speeds st n
          = ([TransportOp.setValues pat], dictUpdate st pat))
    ∧ ∀ i (hi : i < (speeds.map Prod.fst).length),
        (∀ j, j < i → ¬ n ≤ (j + 1) * 100 / speeds.length) →
        n ≤ (i + 1) * 100 / speeds.length →
        percentage_to_ordered_list_item (speeds.map Prod.fst) n
          = some ((speeds.map Prod.fst).get ⟨i, hi⟩) := by
  refine ⟨?_, ?_, ?_⟩
  · intro h0
    subst h0
    exact ⟨by simp [async_set_percentage], rfl⟩
  · intro hn speed pat hfind hlook hne
    have hempty : pat.isEmpty = false := by
      cases pat with
      | nil => exact absurd rfl hne
      | cons a b => rfl
    simp [async_set_percentage, hn, hfind, hlook, hempty]
  · intro i hi hlow hhit
    have hlen : (speeds.map Prod.fst).length = speeds.length := List.length_map _ _
    exact p2o_of_first_bucket (speeds.map Prod.fst) n i hi
      (fun j hj => by rw [hlen]; exact hlow j hj) (by rw [hlen]; exact hhit)

/-- Witness for C4 at the AC1214 speed table: percentage 0 equals the base
turn-off, and percentage 40 lands in the second speed's bucket and sends
exactly its pattern as one batched write. -/
theorem claim_C4_set_percentage_translation_witness :
    async_set_percentage legacyFanConfig ac1214Speeds [] 0
      = async_turn_off legacyFanConfig []
    ∧ async_set_percentage legacyFanConfig ac1214Speeds [] 40
        = ([TransportOp.setValues [(legacyModeKey, Value.s "M"), (legacySpeedKey, Value.s "1")]],
            dictUpdate [] [(legacyModeKey, Value.s "M"), (legacySpeedKey, Value.s "1")])
    ∧ percentage_to_ordered_list_item (ac1214Speeds.map Prod.fst) 40 = some "speed 1" := by
  refine ⟨?_, ?_, ?_⟩
  · exact ((claim_C4_set_percentage_translation legacyFanConfig ac1214Speeds [] 0
      (by decide)).1 rfl).1
  · exact (claim_C4_set_percentage_translation legacyFanConfig ac1214Speeds [] 40
      (by decide)).2.1 (by decide) "speed 1"
      [(legacyModeKey, Value.s "M"), (legacySpeedKey, Value.s "1")]
      (by decide) (by decide) (by decide)
  · have h := (claim_C4_set_percentage_translation legacyFanConfig ac1214Speeds [] 40
      (by decide)).2.2 1 (by decide) (by decide) (by decide)
    simpa using h

theorem percentageAux_eq_get (allNames : List String)
    (replace : Option (String × String)) (st : RawStatus)
    (entries : List (String × Pattern)) :
    ∀ (i : Nat) (hi : i < entries.length),
      (∀ j (hj : j < entries.length), j < i →
        patternMatches replace st (entries.get ⟨j, hj⟩).2 = false) →
      patternMatches replace st (entries.get ⟨i, hi⟩).2 = true →
      percentageAux allNames replace st entries
        = some (ordered_list_item_to_percentage allNames (entries.get ⟨i, hi⟩).1) := by
  induction entries with
  | nil =>
      intro i hi
      simp at hi
  | cons e rest ih =>
      intro i hi hlow hhit
      obtain ⟨name, pat⟩ := e
      cases i with
      | zero =>
          have h0 : patternMatches replace st pat = true := hhit
          simp [percentageAux, h0]
      | succ i' =>
          have h0 : patternMatches replace st pat = false :=
            hlow 0 (Nat.succ_pos _) (Nat.succ_pos i')
          have hi' : i' < rest.length := Nat.lt_of_succ_lt_succ hi
          have hres := ih i' hi'
            (fun j hj hji => hlow (j + 1) (Nat.succ_lt_succ hj) (Nat.succ_lt_succ hji))
            hhit
          simp only [percentageAux, h0, Bool.false_eq_true, if_false]
          exact hres

theorem indexOf_get_of_nodup (l : List String) :
    ∀ (i : Nat) (hi : i < l.length), l.Nodup →
      l.indexOf (l.get ⟨i, hi⟩) = i := by
  induction l with
  | nil =>
      intro i hi
      simp at hi
  | cons x rest ih =>
      intro i hi hnd
      cases i with
      | zero => simp
      | succ i' =>
          have hi' : i' < rest.length := Nat.lt_of_succ_lt_succ hi
          have hget : (x :: rest).get ⟨i' + 1, hi⟩ = rest.get ⟨i', hi'⟩ := rfl
          have hx : x ≠ rest.get ⟨i', hi'⟩ := by
            intro he
            apply (List.nodup_cons.mp hnd).1
            rw [he]
            exact List.get_mem rest i' hi'
          rw [hget, List.indexOf_cons_ne rest hx, ih i' hi' (List.nodup_cons.mp hnd).2]

theorem overriddenBy_exists {pj pi : Pattern} (h : overriddenBy pj pi = true) :
    ∃ kv ∈ pj, ∃ w, alookup kv.1 pi = some w ∧ w ≠ kv.2 := by
  obtain ⟨kv, hmem, hkv⟩ := List.any_eq_true.mp h
  refine ⟨kv, hmem, ?_⟩
  rcases hl : alookup kv.1 pi with _ | w
  · rw [hl] at hkv
    simp at hkv
  · rw [hl] at hkv
    exact ⟨w, rfl, by simpa using hkv⟩

theorem tableOkB_pairs (l : List (String × Pattern)) :
    tableOkB l = true →
    ∀ (j i : Nat) (hj : j < l.length) (hi : i < l.length), j < i →
      overriddenBy (l.get ⟨j, hj⟩).2 (l.get ⟨i, hi⟩).2 = true := by
  induction l with
  | nil =>
      intro _ j i hj
      simp at hj
  | cons e rest ih =>
      intro h j i hj hi hji
      have hsplit : (rest.all fun e2 => overriddenBy e.2 e2.2) = true
          ∧ tableOkB rest = true := by
        simpa [tableOkB] using h
      cases j with
      | zero =>
          cases i with
          | zero => exact absurd hji (by omega)
          | succ i' =>
              have hi' : i' < rest.length := Nat.lt_of_succ_lt_succ hi
              have := List.all_eq_true.mp hsplit.1 (rest.get ⟨i', hi'⟩)
                (List.get_mem rest i' hi')
              exact this
      | succ j' =>
          cases i with
          | zero => exact absurd hji (by omega)
          | succ i' =>
              exact ih hsplit.2 j' i' (Nat.lt_of_succ_lt_succ hj)
                (Nat.lt_of_succ_lt_succ hi) (Nat.lt_of_succ_lt_succ hji)

/-- C3: percentage discretization round-trips. For every speed table with
at most 100 declared speeds, distinct names, duplicate-free patterns, and
later patterns overriding earlier ones (as all declared families satisfy),
setting the percentage corresponding to ordinal `i` and then reading the
percentage projection from the optimistically updated status yields the
same percentage (hence the same ordinal). -/
theorem claim_C3_percentage_roundtrip (cfg : FanConfig)
    (speeds : List (String × Pattern)) (st : RawStatus) (i : Nat)
    (hi : i < speeds.length) (hN : speeds.length ≤ 100)
    (hnames : (speeds.map Prod.fst).Nodup)
    (hpats : ∀ e ∈ speeds, ((e.2).map Prod.fst).Nodup)
    (hok : tableOkB speeds = true) :
    percentage speeds none
        ((async_set_percentage cfg speeds st ((i + 1) * 100 / speeds.length)).2)
      = some ((i + 1) * 100 / speeds.length) := by
  have hNpos : 0 < speeds.length := Nat.lt_of_le_of_lt (Nat.zero_le i) hi
  set p := (i + 1) * 100 / speeds.length with hpdef
  have hp0 : p ≠ 0 := by
    intro h0
    have h1 : 1 ≤ 100 / speeds.length := (Nat.one_le_div_iff hNpos).mpr hN
    have h2 : 100 / speeds.length ≤ p :=
      Nat.div_le_div_right (by omega)
    rw [h0] at h2
    exact Nat.not_succ_le_zero 0 (le_trans h1 h2)
  have hlenmap : (speeds.map Prod.fst).length = speeds.length := List.length_map _ _
  have hi' : i < (speeds.map Prod.fst).length := by
    rw [hlenmap]
    exact hi
  have hchoose : percentage_to_ordered_list_item (speeds.map Prod.fst) p
      = some ((speeds.map Prod.fst).get ⟨i, hi'⟩) := by
    apply p2o_of_first_bucket
    · intro j hj
      rw [hlenmap, hpdef]
      exact Nat.not_le.mpr (ub_strict_mono speeds.length j i hNpos hN hj)
    · rw [hlenmap, hpdef]
  have hname : (speeds.map Prod.fst).get ⟨i, hi'⟩ = speeds[i].1 := by
    simp
  have hmem : speeds[i] ∈ speeds := List.get_mem speeds i hi
  have hlook : alookup speeds[i].1 speeds = some speeds[i].2 :=
    mem_alookup_of_nodup (by simp [hmem]) hnames
  have hst2 : (async_set_percentage cfg speeds st p).2
      = dictUpdate st speeds[i].2 := by
    simp [async_set_percentage, hp0, hchoose, hname, hlook]
  rw [hst2]
  have hndpat : ((speeds[i].2).map Prod.fst).Nodup := hpats _ hmem
  have hhit : patternMatches none (dictUpdate st speeds[i].2) speeds[i].2 = true := by
    rw [patternMatches_true_iff]
    intro kv hkv
    have hs : substKey none kv.1 = kv.1 := rfl
    have hkv2 : alookup kv.1 speeds[i].2 = some kv.2 :=
      mem_alookup_of_nodup (by simpa using hkv) hndpat
    rw [hs, alookup_dictUpdate kv.1 st _ hndpat, hkv2]
    rfl
  have hlow : ∀ j (hj : j < speeds.length), j < i →
      patternMatches none (dictUpdate st speeds[i].2)
        (speeds.get ⟨j, hj⟩).2 = false := by
    intro j hj hji
    rw [patternMatches_false_iff]
    obtain ⟨kv, hkvmem, w, hw, hwne⟩ :=
      overriddenBy_exists (tableOkB_pairs speeds hok j i hj hi hji)
    refine ⟨kv, hkvmem, ?_⟩
    have hs : substKey none kv.1 = kv.1 := rfl
    have hw2 : alookup kv.1 speeds[i].2 = some w := hw
    rw [hs, alookup_dictUpdate kv.1 st _ hndpat, hw2]
    simpa [orOpt] using hwne
  rw [percentage, percentageAux_eq_get (speeds.map Prod.fst) none _ speeds i hi hlow hhit]
  have hidx : (speeds.map Prod.fst).indexOf ((speeds.get ⟨i, hi⟩).1) = i := by
    have h2 : (speeds.map Prod.fst).get ⟨i, hi'⟩ = (speeds.get ⟨i, hi⟩).1 := by simp
    rw [← h2]
    exact indexOf_get_of_nodup (speeds.map Prod.fst) i hi' hnames
  rw [ordered_list_item_to_percentage, hidx, hlenmap, hpdef]

/-- Witness for C3 at the AC1214 speed table: from a status in auto mode
with a stale speed field, setting the percentage of ordinal 0 (night,
20 percent) and re-reading the projection yields 20 percent again. -/
theorem claim_C3_percentage_roundtrip_witness :
    percentage ac1214Speeds none
        ((async_set_percentage legacyFanConfig ac1214Speeds
          [(legacySpeedKey, Value.s "1"), (legacyModeKey, Value.s "P")]
          ((0 + 1) * 100 / ac1214Speeds.length)).2)
      = some ((0 + 1) * 100 / ac1214Speeds.length) :=
  claim_C3_percentage_roundtrip legacyFanConfig ac1214Speeds
    [(legacySpeedKey, Value.s "1"), (legacyModeKey, Value.s "P")] 0
    (by decide) (by decide) (by decide)
    (by
      intro e he
      fin_cases he <;> decide)
    (by decide)

theorem preset_mode_mem {presets : List (String × Pattern)}
    {r : Option (String × String)} {st : RawStatus} {name : String}
    (h : preset_mode presets r st = some name) :
    ∃ pat, (name, pat) ∈ presets ∧ patternMatches r st pat = true := by
  induction presets with
  | nil => simp [preset_mode] at h
  | cons e rest ih =>
      obtain ⟨n, p⟩ := e
      simp only [preset_mode] at h
      cases hm : patternMatches r st p with
      | true =>
          rw [hm] at h
          simp only [if_true] at h
          obtain rfl : n = name := Option.some.inj h
          exact ⟨p, List.mem_cons_self _ _, hm⟩
      | false =>
          rw [hm] at h
          simp only [Bool.false_eq_true, if_false] at h
          obtain ⟨pat, hmem, hpm⟩ := ih h
          exact ⟨pat, List.mem_cons_of_mem _ hmem, hpm⟩

theorem ac1214_ensure_mode_transition_eq (st : RawStatus) (target : Option Value) :
    ac1214_ensure_mode_transition ac1214Presets st target
      = if target ≠ some (Value.s "A")
            ∧ modeIsNotManual (ac1214ProjectedMode ac1214Presets st) = true
        then [TransportOp.setValues [(legacyModeKey, Value.s "A")], TransportOp.sleep 1]
        else [] := by
  unfold ac1214_ensure_mode_transition ac1214ProjectedMode
  cases hpm : preset_mode ac1214Presets none st with
  | none => simp [modeIsNotManual]
  | some name =>
      obtain ⟨pat0, hmem0, _⟩ := preset_mode_mem hpm
      have hlk : alookup name ac1214Presets = some pat0 :=
        mem_alookup_of_nodup hmem0 (by decide)
      dsimp only
      rw [hlk]
      have hall : ∀ e ∈ ac1214Presets,
          e.2.isEmpty = false ∧ (alookup legacyModeKey e.2).isSome := by decide
      obtain ⟨hempty, hsome⟩ := hall _ hmem0
      obtain ⟨m, hm⟩ := Option.isSome_iff_exists.mp hsome
      have hallergen : alookup "allergen" ac1214Presets
          = some [(legacyModeKey, Value.s "A")] := by decide
      by_cases ht : target = some (Value.s "A")
      · simp [ht, modeIsNotManual]
      · by_cases hmm : m = Value.s "M"
        · simp [ht, hempty, hm, hmm, hallergen, modeIsNotManual]
        · simp [ht, hempty, hm, hmm, hallergen, modeIsNotManual]

/-- Counterexample to C5 as stated: with the AC1214 in an unrecognized mode
(no preset pattern matches, so there is no currently projected mode), a
request for "auto" has target mode "P" (not "A") and the projected mode is
not "M" — yet the command sequence contains no intermediate allergen
write, because the source skips the transition when the projected preset
pattern is falsy. -/
theorem claim_C5_counterexample :
    alookup "auto" ac1214Presets = some [(legacyModeKey, Value.s "P")]
    ∧ alookup legacyModeKey [(legacyModeKey, Value.s "P")] ≠ some (Value.s "A")
    ∧ ac1214ProjectedMode ac1214Presets [(legacyModeKey, Value.s "X")]
        ≠ some (Value.s "M")
    ∧ TransportOp.setValues [(legacyModeKey, Value.s "A")]
        ∉ (ac1214_set_preset_mode ac1214Presets
            [(legacyModeKey, Value.s "X")] "auto").1 := by
  decide

/-- C5 (amended): for the AC1214's sequenced strategy, a declared preset or
speed change first issues a power-on write with a one-second settle delay
exactly when the device is currently off; and the intermediate allergen
(mode "A") pattern with a settle delay is written before the final target
pattern exactly when the target mode is not "A" and a currently projected
preset exists whose mode is not the manual mode "M". -/
theorem claim_C5_ac1214_sequencing (st : RawStatus) :
    (∀ preset pat, alookup preset ac1214Presets = some pat →
      (ac1214_set_preset_mode ac1214Presets st preset).1
        = (if is_on legacyFanConfig st then []
            else [TransportOp.setValue legacyPowerKey (Value.s "1"), TransportOp.sleep 1])
          ++ (if alookup legacyModeKey pat ≠ some (Value.s "A")
                ∧ modeIsNotManual (ac1214ProjectedMode ac1214Presets st) = true
              then [TransportOp.setValues [(legacyModeKey, Value.s "A")], TransportOp.sleep 1]
              else [])
          ++ [TransportOp.setValues pat])
    ∧ ∀ n, n ≠ 0 → ∀ speed pat,
        percentage_to_ordered_list_item (ac1214Speeds.map Prod.fst) n = some speed →
        alookup speed ac1214Speeds = some pat →
        (ac1214_set_percentage ac1214Presets ac1214Speeds st n).1
          = (if is_on legacyFanConfig st then []
              else [TransportOp.setValue legacyPowerKey (Value.s "1"), TransportOp.sleep 1])
            ++ (if alookup legacyModeKey pat ≠ some (Value.s "A")
                  ∧ modeIsNotManual (ac1214ProjectedMode ac1214Presets st) = true
                then [TransportOp.setValues [(legacyModeKey, Value.s "A")], TransportOp.sleep 1]
                else [])
            ++ [TransportOp.setValues pat] := by
  constructor
  · intro preset pat hlk
    have hempty : pat.isEmpty = false := by
      have hall : ∀ e ∈ ac1214Presets, e.2.isEmpty = false := by decide
      exact hall _ (alookup_mem hlk)
    simp [ac1214_set_preset_mode, ac1214_ensure_power_on, hlk, hempty,
      ac1214_ensure_mode_transition_eq]
  · intro n hn speed pat hfind hlk
    have hempty : pat.isEmpty = false := by
      have hall : ∀ e ∈ ac1214Speeds, e.2.isEmpty = false := by decide
      exact hall _ (alookup_mem hlk)
    simp [ac1214_set_percentage, ac1214_ensure_power_on, hn, hfind, hlk, hempty,
      ac1214_ensure_mode_transition_eq]

/-- Witness for C5 at a concrete scenario: the AC1214 is off in auto mode;
requesting the night preset issues power-on with a settle delay, then the
intermediate allergen write with a settle delay, then the night pattern. -/
theorem claim_C5_ac1214_sequencing_witness :
    (ac1214_set_preset_mode ac1214Presets [(legacyModeKey, Value.s "P")] "night").1
      = [TransportOp.setValue legacyPowerKey (Value.s "1"), TransportOp.sleep 1,
         TransportOp.setValues [(legacyModeKey, Value.s "A")], TransportOp.sleep 1,
         TransportOp.setValues [(legacyModeKey, Value.s "N")]] := by
  have h := (claim_C5_ac1214_sequencing [(legacyModeKey, Value.s "P")]).1 "night"
    [(legacyModeKey, Value.s "N")] (by decide)
  rw [h]
  decide

/-- Counterexample to C6 as stated: the AC1214's overridden set-preset path
issues a non-empty transport write but leaves the local status store
untouched, so the preset projection immediately after the command still
reports the old preset ("auto") instead of the commanded one
("allergen"). -/
theorem claim_C6_counterexample :
    (ac1214_set_preset_mode ac1214Presets
        [(legacyPowerKey, Value.s "1"), (legacyModeKey, Value.s "P")] "allergen").1 ≠ []
    ∧ (ac1214_set_preset_mode ac1214Presets
        [(legacyPowerKey, Value.s "1"), (legacyModeKey, Value.s "P")] "allergen").2
      = [(legacyPowerKey, Value.s "1"), (legacyModeKey, Value.s "P")]
    ∧ preset_mode ac1214Presets none
        (ac1214_set_preset_mode ac1214Presets
          [(legacyPowerKey, Value.s "1"), (legacyModeKey, Value.s "P")] "allergen").2
      = some "auto" := by
  decide

/-- C6 (amended): every base-implementation command write (turn on with no
arguments, turn off, set preset, set percentage, oscillate) immediately
applies its written key-to-value set to the local status store, so reads of
the written keys reflect the commanded state; the AC1214's overridden
preset and positive-percentage paths are the exception — they write to the
transport without updating the store. -/
theorem claim_C6_optimistic_updates (cfg : FanConfig)
    (presets speeds : List (String × Pattern)) (keyOsc : String) (onV offV : Value)
    (st : RawStatus) (b : Bool) :
    ((async_turn_on cfg presets speeds st none none).2
        = dictSet st cfg.powerKey cfg.powerOn
      ∧ alookup cfg.powerKey (async_turn_on cfg presets speeds st none none).2
          = some cfg.powerOn)
    ∧ ((async_turn_off cfg st).2 = dictSet st cfg.powerKey cfg.powerOff
      ∧ alookup cfg.powerKey (async_turn_off cfg st).2 = some cfg.powerOff)
    ∧ (∀ preset pat, alookup preset presets = some pat → pat ≠ [] →
        (async_set_preset_mode presets st preset).2 = dictUpdate st pat
        ∧ ((pat.map Prod.fst).Nodup →
            ∀ kv ∈ pat, alookup kv.1 (async_set_preset_mode presets st preset).2
              = some kv.2))
    ∧ (∀ n, n ≠ 0 → ∀ speed pat,
        percentage_to_ordered_list_item (speeds.map Prod.fst) n = some speed →
        alookup speed speeds = some pat →
        (async_set_percentage cfg speeds st n).2 = dictUpdate st pat)
    ∧ ((async_oscillate (some (keyOsc, onV, offV)) st b).2
        = dictSet st keyOsc (if b then onV else offV)
      ∧ oscillating (some (keyOsc, onV, offV))
          (async_oscillate (some (keyOsc, onV, offV)) st b).2
          = some (decide ((if b then onV else offV) ≠ offV)))
    ∧ (∀ preset, (ac1214_set_preset_mode presets st preset).2 = st)
    ∧ (∀ n, n ≠ 0 → (ac1214_set_percentage presets speeds st n).2 = st) := by
  refine ⟨⟨rfl, ?_⟩, ⟨rfl, ?_⟩, ?_, ?_, ⟨rfl, ?_⟩, ?_, ?_⟩
  · show alookup cfg.powerKey (dictSet st cfg.powerKey cfg.powerOn) = some cfg.powerOn
    rw [alookup_dictSet]
    simp
  · show alookup cfg.powerKey (dictSet st cfg.powerKey cfg.powerOff) = some cfg.powerOff
    rw [alookup_dictSet]
    simp
  · intro preset pat hlk hne
    have hempty : pat.isEmpty = false := by
      cases pat with
      | nil => exact absurd rfl hne
      | cons a b => rfl
    constructor
    · simp [async_set_preset_mode, hlk, hempty]
    · intro hnd kv hkv
      have hkv2 : alookup kv.1 pat = some kv.2 :=
        mem_alookup_of_nodup (by simpa using hkv) hnd
      simp [async_set_preset_mode, hlk, hempty,
        alookup_dictUpdate kv.1 st pat hnd, hkv2, orOpt]
  · intro n hn speed pat hfind hlk
    simp [async_set_percentage, hn, hfind, hlk]
  · show oscillating (some (keyOsc, onV, offV))
        (dictSet st keyOsc (if b then onV else offV)) = _
    simp [oscillating, alookup_dictSet]
  · intro preset
    unfold ac1214_set_preset_mode
    cases halk : alookup preset presets with
    | none => rfl
    | some pat =>
        dsimp only
        split <;> rfl
  · intro n hn
    unfold ac1214_set_percentage
    rw [if_neg hn]
    cases hfind : percentage_to_ordered_list_item (speeds.map Prod.fst) n with
    | none => rfl
    | some speed =>
        dsimp only
        cases halk : alookup speed speeds with
        | none => rfl
        | some pat =>
            split <;> first
              | rfl
              | (split <;> rfl)

/-- Witness for C6 at concrete inputs: a base set-preset immediately makes
the store reflect the written pattern, while the AC1214 override leaves
the store unchanged. -/
theorem claim_C6_optimistic_updates_witness :
    (async_set_preset_mode ac1214Presets [] "auto").2
      = dictUpdate [] [(legacyModeKey, Value.s "P")]
    ∧ alookup legacyModeKey (async_set_preset_mode ac1214Presets [] "auto").2
        = some (Value.s "P")
    ∧ (ac1214_set_preset_mode ac1214Presets [] "auto").2 = [] := by
  have h := claim_C6_optimistic_updates legacyFanConfig ac1214Presets ac1214Speeds
    "osc" (Value.i 1) (Value.i 0) [] true
  refine ⟨?_, ?_, ?_⟩
  · exact (h.2.2.1 "auto" [(legacyModeKey, Value.s "P")] (by decide) (by decide)).1
  · exact (h.2.2.1 "auto" [(legacyModeKey, Value.s "P")] (by decide) (by decide)).2
      (by decide) (legacyModeKey, Value.s "P") (by decide)
  · exact h.2.2.2.2.2.1 "auto"

theorem lowEntry_fst {st : RawStatus} {ft : FilterType} {k : String} {v : Value}
    {e : String × Int} (h : lowEntry st ft k v = some e) : e.1 = k := by
  unfold lowEntry at h
  have hraw : ∀ (v' : Value), rawLowEntry k v' = some e → e.1 = k := by
    intro v' hr
    unfold rawLowEntry at hr
    cases hv : toIntVal v' with
    | none => rw [hv] at hr; exact absurd hr (by simp)
    | some value =>
        rw [hv] at hr
        dsimp only at hr
        by_cases hlt : value < 72
        · rw [if_pos hlt] at hr
          obtain rfl := Option.some.inj hr
          rfl
        · rw [if_neg hlt] at hr
          exact absurd hr (by simp)
  cases htk : ft.totalKey with
  | none =>
      rw [htk] at h
      exact hraw v h
  | some tk =>
      rw [htk] at h
      dsimp only at h
      cases htv : alookup tk st with
      | none =>
          rw [htv] at h
          exact hraw v h
      | some tv =>
          rw [htv] at h
          dsimp only at h
          cases hv : toIntVal v with
          | none => rw [hv] at h; exact absurd h (by simp)
          | some value =>
              rw [hv] at h
              cases hv2 : toIntVal tv with
              | none => rw [hv2] at h; exact absurd h (by simp)
              | some total =>
                  rw [hv2] at h
                  dsimp only at h
                  by_cases hpos : 0 < total
                  · rw [if_pos hpos] at h
                    by_cases hth :
                        roundDivHalfEven (100 * value) total < FILTER_ALERT_THRESHOLD
                    · rw [if_pos hth] at h
                      obtain rfl := Option.some.inj h
                      rfl
                    · rw [if_neg hth] at h
                      exact absurd h (by simp)
                  · rw [if_neg hpos] at h
                    exact absurd h (by simp)

theorem getLowFilters_keys_sublist (types : List FilterType)
    (filterKeys : List String) (st : RawStatus) :
    ((getLowFilters types filterKeys st).map Prod.fst).Sublist filterKeys := by
  induction filterKeys with
  | nil => simp [getLowFilters]
  | cons k rest ih =>
      show ((getLowFilters types (k :: rest) st).map Prod.fst).Sublist (k :: rest)
      unfold getLowFilters
      cases alookup k st with
      | none => exact ih.cons k
      | some v =>
          dsimp only
          cases findFilterType k types with
          | none => exact ih.cons k
          | some ft =>
              dsimp only
              cases hle : lowEntry st ft k v with
              | none => exact ih.cons k
              | some e =>
                  have he : e.1 = k := lowEntry_fst hle
                  simp only [List.map_cons, he]
                  exact ih.cons₂ k

/-- C7: filter alerting is edge-triggered across update cycles. On the
first observation ever (previous alert state uninitialized) no event is
emitted; on every later cycle exactly one event is emitted per filter key
that is newly low (low now but not in the stored previous low set), each
carrying the device id and name, the filter key and display name, the
percentage-or-raw value, and the threshold; and the current low set is
stored as the previous low set unconditionally, including on the
suppressed first cycle. -/
theorem claim_C7_filter_alert_edge_trigger (types : List FilterType)
    (filterKeys : List String) (devId devName : String) (st : RawStatus)
    (state : AlertState) (hkeys : filterKeys.Nodup) :
    (state.prevAlert = none →
      (handleCoordinatorUpdate types filterKeys devId devName st state).1 = [])
    ∧ (∀ b, state.prevAlert = some b →
        (((handleCoordinatorUpdate types filterKeys devId devName st state).1.map
            AlertEvent.filterKey).Nodup
        ∧ (∀ k, k ∈ (handleCoordinatorUpdate types filterKeys devId devName st
              state).1.map AlertEvent.filterKey ↔
            k ∈ (getLowFilters types filterKeys st).map Prod.fst
              ∧ k ∉ state.prevLow)
        ∧ ∀ e ∈ (handleCoordinatorUpdate types filterKeys devId devName st state).1,
            e.deviceId = devId ∧ e.deviceName = devName
              ∧ e.threshold = FILTER_ALERT_THRESHOLD
              ∧ e.percentage = alookup e.filterKey (getLowFilters types filterKeys st)
              ∧ e.filterName = (match findFilterType e.filterKey types with
                  | some ft => ft.label
                  | none => e.filterKey)))
    ∧ (handleCoordinatorUpdate types filterKeys devId devName st state).2.prevLow
        = (getLowFilters types filterKeys st).map Prod.fst
    ∧ ((handleCoordinatorUpdate types filterKeys devId devName st state).2.prevAlert
        = some (!((getLowFilters types filterKeys st).map Prod.fst).isEmpty)) := by
  have hndlow : ((getLowFilters types filterKeys st).map Prod.fst).Nodup :=
    hkeys.sublist (getLowFilters_keys_sublist types filterKeys st)
  refine ⟨?_, ?_, ?_, ?_⟩
  · intro h
    unfold handleCoordinatorUpdate
    rw [h]
  · intro b hb
    unfold handleCoordinatorUpdate
    rw [hb]
    dsimp only
    refine ⟨?_, ?_, ?_⟩
    · rw [List.map_map]
      have : (AlertEvent.filterKey ∘ fun k =>
          AlertEvent.mk devId devName k
            (match findFilterType k types with
             | some ft => ft.label
             | none => k)
            (alookup k (getLowFilters types filterKeys st)) FILTER_ALERT_THRESHOLD)
          = id := rfl
      rw [this, List.map_id]
      exact (hndlow.filter _)
    · intro k
      rw [List.map_map]
      have : (AlertEvent.filterKey ∘ fun k =>
          AlertEvent.mk devId devName k
            (match findFilterType k types with
             | some ft => ft.label
             | none => k)
            (alookup k (getLowFilters types filterKeys st)) FILTER_ALERT_THRESHOLD)
          = id := rfl
      rw [this, List.map_id]
      simp [List.mem_filter]
    · intro e he
      obtain ⟨k, hk, rfl⟩ := List.mem_map.mp he
      exact ⟨rfl, rfl, rfl, rfl, rfl⟩
  · unfold handleCoordinatorUpdate
    cases state.prevAlert <;> rfl
  · unfold handleCoordinatorUpdate
    cases hpa : state.prevAlert <;>
      · dsimp only
        congr 1
        cases hie : ((getLowFilters types filterKeys st).map Prod.fst).isEmpty <;>
          simp [hie]

/-- Witness for C7 at a concrete filter (remaining 10 of total 100, so 10
percent, below the threshold 50): the uninitialized first cycle emits no
event yet stores the low set; a later cycle with an empty previous low set
emits the "f0" alert carrying percentage 10 and threshold 50. -/
theorem claim_C7_filter_alert_edge_trigger_witness :
    (handleCoordinatorUpdate [FilterType.mk "f0" "pre-filter" (some "t0")] ["f0"]
        "dev1" "Device" [("f0", Value.i 10), ("t0", Value.i 100)]
        (AlertState.mk none [])).1 = []
    ∧ (handleCoordinatorUpdate [FilterType.mk "f0" "pre-filter" (some "t0")] ["f0"]
        "dev1" "Device" [("f0", Value.i 10), ("t0", Value.i 100)]
        (AlertState.mk none [])).2.prevLow = ["f0"]
    ∧ "f0" ∈ (handleCoordinatorUpdate [FilterType.mk "f0" "pre-filter" (some "t0")]
        ["f0"] "dev1" "Device" [("f0", Value.i 10), ("t0", Value.i 100)]
        (AlertState.mk (some false) [])).1.map AlertEvent.filterKey
    ∧ ∀ e ∈ (handleCoordinatorUpdate [FilterType.mk "f0" "pre-filter" (some "t0")]
        ["f0"] "dev1" "Device" [("f0", Value.i 10), ("t0", Value.i 100)]
        (AlertState.mk (some false) [])).1,
        e.percentage = some 10 ∧ e.threshold = 50 := by
  have h1 := claim_C7_filter_alert_edge_trigger
    [FilterType.mk "f0" "pre-filter" (some "t0")] ["f0"] "dev1" "Device"
    [("f0", Value.i 10), ("t0", Value.i 100)] (AlertState.mk none []) (by decide)
  have h2 := claim_C7_filter_alert_edge_trigger
    [FilterType.mk "f0" "pre-filter" (some "t0")] ["f0"] "dev1" "Device"
    [("f0", Value.i 10), ("t0", Value.i 100)] (AlertState.mk (some false) []) (by decide)
  refine ⟨h1.1 rfl, ?_, ?_, ?_⟩
  · rw [h1.2.2.1]
    decide
  · exact ((h2.2.1 false rfl).2.1 "f0").mpr ⟨by decide, by decide⟩
  · intro e he
    have h3 := (h2.2.1 false rfl).2.2 e he
    have hkmem : e.filterKey ∈ (handleCoordinatorUpdate
        [FilterType.mk "f0" "pre-filter" (some "t0")] ["f0"] "dev1" "Device"
        [("f0", Value.i 10), ("t0", Value.i 100)]
        (AlertState.mk (some false) [])).1.map AlertEvent.filterKey :=
      List.mem_map_of_mem AlertEvent.filterKey he
    have hlow := (((h2.2.1 false rfl).2.1 e.filterKey).mp hkmem).1
    have hl : (getLowFilters [FilterType.mk "f0" "pre-filter" (some "t0")] ["f0"]
        [("f0", Value.i 10), ("t0", Value.i 100)]).map Prod.fst = ["f0"] := by decide
    rw [hl] at hlow
    have hfk : e.filterKey = "f0" := by simpa using hlow
    refine ⟨?_, h3.2.2.1⟩
    rw [h3.2.2.2.1, hfk]
    decide
